import Mathlib

/-!
Verification development for the SOP RAG agent backend.

The Python sources are shallowly embedded as executable Lean definitions:
text is handled as `List Char`, the external tokenizer (`count_tokens`)
is a parameter `lenFn : List Char → Nat`, and external collaborators
(PDF or DOCX extraction, the embedding service, the vector database and
the generation model) are explicit function parameters.  Fallible code is
modelled with `Except`.
-/

namespace SopRag

/-! ## Text helpers mirroring Python string primitives -/

/-- Python whitespace set used by `str.strip()` and the regex class for
whitespace, restricted to the ASCII range used throughout the sources. -/
def pyIsSpace (c : Char) : Bool :=
  c == ' ' || c == '\t' || c == '\n' || c == '\r' || c == '\x0b' || c == '\x0c'

/-- Python `str.strip()` on a character list. -/
def pyStrip (l : List Char) : List Char :=
  ((l.dropWhile pyIsSpace).reverse.dropWhile pyIsSpace).reverse

/-- Prefix test on character lists. -/
def isPrefixL : List Char → List Char → Bool
  | [], _ => true
  | _ :: _, [] => false
  | a :: as, b :: bs => a == b && isPrefixL as bs

/-- Substring occurrence test, mirroring `re.search` on an escaped literal
separator. -/
def containsSub (sep : List Char) : List Char → Bool
  | [] => isPrefixL sep []
  | c :: rest => isPrefixL sep (c :: rest) || containsSub sep rest

/-- `"sep".join`-style concatenation on character lists. -/
def intercalateL (sep : List Char) : List (List Char) → List Char
  | [] => []
  | [d] => d
  | d :: rest => d ++ sep ++ intercalateL sep rest

/-- Worker for `splitKeep`: splits on the leftmost non-overlapping
occurrences of `sep`, attaching each separator to the piece that follows
it, exactly as langchain `_split_text_with_regex` does with
`keep_separator=True`.  The fuel argument is always instantiated with the
length of the text, which bounds the number of scanning steps. -/
def splitKeepF (sep : List Char) : Nat → List Char → List Char → List (List Char)
  | _, cur, [] => [cur]
  | 0, cur, l => [cur ++ l]
  | fuel + 1, cur, c :: rest =>
    if isPrefixL sep (c :: rest) then
      cur :: splitKeepF sep fuel sep ((c :: rest).drop sep.length)
    else
      splitKeepF sep fuel (cur ++ [c]) rest

/-- langchain `_split_text_with_regex text sep keep_separator=True`, with
empty pieces filtered out.  An empty separator splits into single
characters, like `list(text)`. -/
def splitKeep (sep : List Char) (text : List Char) : List (List Char) :=
  if sep = [] then
    (text.map (fun c => [c])).filter (· ≠ [])
  else
    (splitKeepF sep text.length [] text).filter (· ≠ [])

/-! ## The token-budgeted splitter

`chunk_text_by_tokens` constructs a langchain
`RecursiveCharacterTextSplitter` with `length_function=count_tokens` and
`separators=["\n\n", "\n", ". ", " ", ""]` and calls `split_text`.
The splitter is embedded below, parameterised by the length function.
The second component of each result counts the oversize log warnings the
library would emit from `_merge_splits`. -/

/-- The running `total` maintained by langchain `_merge_splits`:
lengths of the buffered pieces plus one separator length between each
adjacent pair. -/
def totalOf (lenFn : List Char → Nat) (sepLen : Nat) : List (List Char) → Nat
  | [] => 0
  | [d] => lenFn d
  | d :: rest => lenFn d + sepLen + totalOf lenFn sepLen rest

/-- The pop loop of `_merge_splits`: evict buffered pieces from the front
while the buffer exceeds the overlap, or while it would overflow the chunk
size once the incoming piece (of length `l`) is appended. -/
def popLoop (lenFn : List Char → Nat) (sep : List Char) (size ov l : Nat) :
    List (List Char) → List (List Char)
  | [] => []
  | d :: rest =>
    let sepLen := lenFn sep
    let total := totalOf lenFn sepLen (d :: rest)
    if total > ov ∨ (total + l + sepLen > size ∧ total > 0) then
      popLoop lenFn sep size ov l rest
    else
      d :: rest

/-- langchain `_join_docs`: join with the separator, strip whitespace, and
drop the result when it is empty. -/
def joinDocs (sep : List Char) (docs : List (List Char)) : Option (List Char) :=
  let text := pyStrip (intercalateL sep docs)
  if text = [] then none else some text

/-- Main loop of langchain `_merge_splits`.  `acc` is the pair of emitted
documents and of the count of oversize warnings logged so far. -/
def mergeGo (lenFn : List Char → Nat) (sep : List Char) (size ov : Nat) :
    List (List Char) → List (List Char) → List (List Char) × Nat → List (List Char) × Nat
  | [], cur, acc =>
    match joinDocs sep cur with
    | none => acc
    | some doc => (acc.1 ++ [doc], acc.2)
  | d :: ds, cur, acc =>
    let sepLen := lenFn sep
    let l := lenFn d
    let total := totalOf lenFn sepLen cur
    if total + l + (if cur ≠ [] then sepLen else 0) > size then
      let warns := if total > size then acc.2 + 1 else acc.2
      if cur ≠ [] then
        let docs := match joinDocs sep cur with
          | none => acc.1
          | some doc => acc.1 ++ [doc]
        let cur2 := popLoop lenFn sep size ov l cur
        mergeGo lenFn sep size ov ds (cur2 ++ [d]) (docs, warns)
      else
        mergeGo lenFn sep size ov ds (cur ++ [d]) (acc.1, warns)
    else
      mergeGo lenFn sep size ov ds (cur ++ [d]) acc

/-- langchain `_merge_splits`. -/
def mergeSplits (lenFn : List Char → Nat) (sep : List Char) (size ov : Nat)
    (splits : List (List Char)) : List (List Char) × Nat :=
  mergeGo lenFn sep size ov splits [] ([], 0)

/-- The separator hierarchy passed by `chunk_text_by_tokens`:
paragraph break, line break, sentence end, word space, raw characters. -/
def SEPARATORS : List (List Char) :=
  [['\n', '\n'], ['\n'], ['.', ' '], [' '], []]

mutual

/-- langchain `RecursiveCharacterTextSplitter._split_text`.  Picks the
first separator that is empty or occurs in the text (skipping separators
that do not occur), splits by it keeping separators, and hands the pieces
to `splitLoop`.  With `keep_separator=True` the merge separator is the
empty string. -/
def splitTextCore (lenFn : List Char → Nat) (size ov : Nat) :
    List (List Char) → List Char → List (List Char) × Nat
  | [], _ => ([], 0)
  | [s], text => splitLoop lenFn size ov none (splitKeep s text) [] ([], 0)
  | s :: r :: rest, text =>
    if s = [] then
      splitLoop lenFn size ov none (splitKeep [] text) [] ([], 0)
    else if containsSub s text then
      splitLoop lenFn size ov (some (r :: rest)) (splitKeep s text) [] ([], 0)
    else
      splitTextCore lenFn size ov (r :: rest) text
  termination_by seps _ => (seps.length + 1, 0)

/-- The piece loop of `_split_text`: pieces shorter than the budget are
buffered in `good`; when an oversized piece arrives the buffer is flushed
through `_merge_splits`, and the oversized piece is either appended as-is
(no finer separators remain, `newSeps = none`) or re-split at the finer
separators. -/
def splitLoop (lenFn : List Char → Nat) (size ov : Nat) :
    Option (List (List Char)) → List (List Char) → List (List Char) →
      List (List Char) × Nat → List (List Char) × Nat
  | _, [], good, acc =>
    if good ≠ [] then
      let m := mergeSplits lenFn [] size ov good
      (acc.1 ++ m.1, acc.2 + m.2)
    else acc
  | none, s :: rest2, good, acc =>
    if lenFn s < size then
      splitLoop lenFn size ov none rest2 (good ++ [s]) acc
    else
      let acc1 := if good ≠ [] then
          let m := mergeSplits lenFn [] size ov good
          (acc.1 ++ m.1, acc.2 + m.2)
        else acc
      splitLoop lenFn size ov none rest2 [] (acc1.1 ++ [s], acc1.2)
  | some rs, s :: rest2, good, acc =>
    if lenFn s < size then
      splitLoop lenFn size ov (some rs) rest2 (good ++ [s]) acc
    else
      let acc1 := if good ≠ [] then
          let m := mergeSplits lenFn [] size ov good
          (acc.1 ++ m.1, acc.2 + m.2)
        else acc
      let r := splitTextCore lenFn size ov rs s
      splitLoop lenFn size ov (some rs) rest2 [] (acc1.1 ++ r.1, acc1.2 + r.2)
  termination_by newSeps splits _ _ =>
    ((match newSeps with | some rs => rs.length + 1 | none => 0), splits.length + 1)

end

/-- `chunk_text_by_tokens(text, chunk_size, chunk_overlap)`: constructing
the langchain splitter validates the configuration — a ValueError is
raised when the overlap is larger than the chunk size — then
`split_text` runs the recursive splitter.  The result pairs the emitted
chunks with the number of oversize warnings logged. -/
def chunk_text_by_tokens (lenFn : List Char → Nat) (text : List Char)
    (chunk_size chunk_overlap : Nat) : Except String (List (List Char) × Nat) :=
  if chunk_overlap > chunk_size then
    .error "Got a larger chunk overlap than chunk size, should be smaller."
  else
    .ok (splitTextCore lenFn chunk_size chunk_overlap SEPARATORS text)

/-! ## Answer sanitization

`query_rag` post-processes the generated answer with a fixed sequence of
`re.sub` passes.  Each pattern is simple enough to admit a direct
left-to-right scanner: a matcher inspects the head of the remaining text
and either yields the replacement text together with the remainder after
the match, or fails, in which case the scanner emits one character and
retries at the next position — exactly the `re.sub` strategy of leftmost
non-overlapping matches. -/

/-- Generic `re.sub` scanner.  The fuel is instantiated with the length of
the text; every step consumes at least one character, so it never runs
out. -/
def scanSub (m : List Char → Option (List Char × List Char)) :
    Nat → List Char → List Char
  | 0, l => l
  | _, [] => []
  | fuel + 1, c :: rest =>
    match m (c :: rest) with
    | some (out, r) => out ++ scanSub m fuel r
    | none => c :: scanSub m fuel rest

/-- Scan for the closing triple backtick of a fenced block; the lazy
`[\s\S]*?` makes the first following occurrence close the fence. -/
def findFenceClose : List Char → Option (List Char)
  | '`' :: '`' :: '`' :: rest => some rest
  | _ :: rest => findFenceClose rest
  | [] => none

/-- Matcher for `r"```[\s\S]*?```"` with empty replacement.  When no
closing fence exists, no match starting anywhere in the remaining text is
possible, so the scanner leaves the rest untouched via the failure path. -/
def matchFence : List Char → Option (List Char × List Char)
  | '`' :: '`' :: '`' :: rest =>
    match findFenceClose rest with
    | some r => some ([], r)
    | none => none
  | _ => none

/-- Matcher for a double-marker emphasis pattern such as
`r"\*\*([^\*]+)\*\*"`, replaced by the inner text. -/
def matchEmph2 (mk : Char) (l : List Char) : Option (List Char × List Char) :=
  match l with
  | c1 :: c2 :: rest =>
    if c1 = mk ∧ c2 = mk then
      let inner := rest.takeWhile (· ≠ mk)
      let rest2 := rest.dropWhile (· ≠ mk)
      if inner = [] then none
      else match rest2 with
        | d1 :: d2 :: r => if d1 = mk ∧ d2 = mk then some (inner, r) else none
        | _ => none
    else none
  | _ => none

/-- Matcher for a single-marker emphasis pattern such as
`r"\*([^\*]+)\*"`, replaced by the inner text. -/
def matchEmph1 (mk : Char) (l : List Char) : Option (List Char × List Char) :=
  match l with
  | c1 :: rest =>
    if c1 = mk then
      let inner := rest.takeWhile (· ≠ mk)
      let rest2 := rest.dropWhile (· ≠ mk)
      if inner = [] then none
      else match rest2 with
        | d1 :: r => if d1 = mk then some (inner, r) else none
        | _ => none
    else none
  | _ => none

/-- Matcher for `r"\[([^\]]+)\]\([^\)]+\)"`, replaced by the link text. -/
def matchLink : List Char → Option (List Char × List Char)
  | '[' :: rest =>
    let txt := rest.takeWhile (· ≠ ']')
    let rest1 := rest.dropWhile (· ≠ ']')
    if txt = [] then none
    else match rest1 with
      | ']' :: '(' :: rest2 =>
        let url := rest2.takeWhile (· ≠ ')')
        let rest3 := rest2.dropWhile (· ≠ ')')
        if url = [] then none
        else match rest3 with
          | ')' :: r => some (txt, r)
          | _ => none
      | _ => none
  | _ => none

/-- Scanner state for the multiline heading pass `r"^#+\s+"`:
`scan atStart` walks ordinary text remembering whether the position is a
line start; `hash n` has consumed `n` leading hashes of a candidate
heading; `ws lastNl` is consuming the greedy whitespace run, remembering
whether its last character was a newline (which re-anchors `^`). -/
inductive HeadState
  | scan (atStart : Bool)
  | hash (n : Nat)
  | ws (lastNl : Bool)

/-- The heading pass `re.sub(r"^#+\s+", "", answer, flags=re.MULTILINE)`
as a character-level state machine. -/
def removeHeadings : HeadState → List Char → List Char
  | .scan _, [] => []
  | .hash n, [] => List.replicate n '#'
  | .ws _, [] => []
  | .scan atStart, c :: rest =>
    if atStart ∧ c = '#' then removeHeadings (.hash 1) rest
    else c :: removeHeadings (.scan (c = '\n')) rest
  | .hash n, c :: rest =>
    if c = '#' then removeHeadings (.hash (n + 1)) rest
    else if pyIsSpace c then removeHeadings (.ws (c = '\n')) rest
    else List.replicate n '#' ++ c :: removeHeadings (.scan false) rest
  | .ws lastNl, c :: rest =>
    if pyIsSpace c then removeHeadings (.ws (c = '\n')) rest
    else if lastNl ∧ c = '#' then removeHeadings (.hash 1) rest
    else c :: removeHeadings (.scan false) rest

/-- The markdown-stripping pipeline applied to the raw generated answer in
`query_rag`: fenced code blocks removed, `**`/`*`/`__`/`_` emphasis
unwrapped, heading markers removed at line starts, links replaced by their
display text, and finally `str.strip()`. -/
def sanitize_answer (s : String) : String :=
  let l0 := s.data
  let l1 := scanSub matchFence l0.length l0
  let l2 := scanSub (matchEmph2 '*') l1.length l1
  let l3 := scanSub (matchEmph1 '*') l2.length l2
  let l4 := scanSub (matchEmph2 '_') l3.length l3
  let l5 := scanSub (matchEmph1 '_') l4.length l4
  let l6 := removeHeadings (.scan true) l5
  let l7 := scanSub matchLink l6.length l6
  String.mk (pyStrip l7)

/-! ## rag_chain: embedding, citation formatting, query orchestration -/

/-- Failure modes of the external embedding service call. -/
inductive EmbeddingError
  | timeout
  | rateLimit
  | serviceError (msg : String)
deriving DecidableEq

/-- An embedding vector; the numeric payload is opaque to all the code
modelled here, so integers suffice. -/
abbrev Embedding := List Int

/-- Transient-failure classification of the openai v1 client: timeouts
and rate limits (connection errors, 408/409/429/5xx) are retried, other
service errors are surfaced immediately. -/
def isTransient : EmbeddingError → Bool
  | .timeout => true
  | .rateLimit => true
  | .serviceError _ => false

/-- The default retry budget of the module-level `OpenAI(...)` client
(`max_retries=2`): up to two retransmissions after the first attempt. -/
def OPENAI_MAX_RETRIES : Nat := 2

/-- The retry loop the openai v1 client runs inside every
`embeddings.create` call: attempt the request; on a transient failure
with retries remaining, back off exponentially and retransmit; otherwise
surface the error of the last attempt.  `svc n t` is the response the
service would give to the `n`-th transmission of a request for text `t`;
the exponential backoff delay between transmissions is a timing property
with no trace in the returned value. -/
def createWithRetries (svc : Nat → List Char → Except EmbeddingError Embedding)
    (text : List Char) : Nat → Nat → Except EmbeddingError Embedding
  | attempt, 0 => svc attempt text
  | attempt, r + 1 =>
    match svc attempt text with
    | .ok v => .ok v
    | .error e =>
      if isTransient e then createWithRetries svc text (attempt + 1) r
      else .error e

/-- `get_embedding(text)`: one `embeddings.create` call on the
module-level client — which internally retries transient failures with
exponential backoff up to `max_retries` times — wrapped in a
`try`/`except` that logs and re-raises whatever the client finally
surfaces. -/
def get_embedding (svc : Nat → List Char → Except EmbeddingError Embedding)
    (text : List Char) : Except EmbeddingError Embedding :=
  createWithRetries svc text 0 OPENAI_MAX_RETRIES

/-- A chunk row as returned by `search_similar_chunks`, restricted to the
fields `query_rag` consumes. -/
structure RetrievedChunk where
  text : String
  source_file : String
  folder_path : Option String
  page_number : Option Nat
deriving DecidableEq

/-- Python `" > ".join`. -/
def joinWithSep (sep : String) : List String → String
  | [] => ""
  | [x] => x
  | x :: rest => x ++ sep ++ joinWithSep sep rest

/-- `format_source_citation`: collect `folder_path` (when truthy),
`source_file`, and `"Page {n}"` (when `page_number` is truthy), joined
with `" > "`.  Python truthiness drops an empty folder string and page
number `0`. -/
def format_source_citation (c : RetrievedChunk) : String :=
  let parts :=
    (match c.folder_path with
     | some f => if f ≠ "" then [f] else []
     | none => []) ++
    [c.source_file] ++
    (match c.page_number with
     | some p => if p ≠ 0 then ["Page " ++ toString p] else []
     | none => [])
  joinWithSep " > " parts

/-- The source-accumulation loop of `query_rag`: append each citation
only when it is not already present. -/
def buildSources : List RetrievedChunk → List String → List String
  | [], acc => acc
  | c :: rest, acc =>
    let s := format_source_citation c
    buildSources rest (if s ∈ acc then acc else acc ++ [s])

/-- Errors surfaced by `query_rag` (the `except` clause re-raises). -/
inductive QueryError
  | emb (e : EmbeddingError)
  | gen (msg : String)
deriving DecidableEq

/-- The `{answer, sources}` payload of a query. -/
structure QueryResult where
  answer : String
  sources : List String
deriving DecidableEq

/-- The fixed zero-retrieval answer of `query_rag`. -/
def FALLBACK_ANSWER : String :=
  "I couldn\u0027t find any relevant information in the documents to answer your question."

/-- The system prompt literal of `query_rag`. -/
def SYSTEM_PROMPT : String :=
  "You are a helpful assistant that answers questions based on the provided context from documents. \nUse only the information from the context to answer the question. If the context doesn\u0027t contain enough information to answer the question, say so."

/-- `query_rag(user_query, top_k)`: embed the query, retrieve similar
chunks (`search` models `search_similar_chunks` over the store), return
the fixed fallback on zero results, otherwise assemble the context,
invoke generation (`gen` models the chat-completion call, given the
system and user prompts), sanitize the answer, and return it with the
deduplicated sources. -/
def query_rag (svc : Nat → List Char → Except EmbeddingError Embedding)
    (search : Embedding → Nat → List RetrievedChunk)
    (gen : String → String → Except String String)
    (user_query : String) (top_k : Nat) : Except QueryError QueryResult :=
  match get_embedding svc user_query.data with
  | .error e => .error (.emb e)
  | .ok query_embedding =>
    let similar_chunks := search query_embedding top_k
    if similar_chunks = [] then
      .ok ⟨FALLBACK_ANSWER, []⟩
    else
      let context_parts := similar_chunks.map (fun c =>
        "[Source: " ++ format_source_citation c ++ "]\n" ++ c.text)
      let sources := buildSources similar_chunks []
      let context := joinWithSep "\n\n---\n\n" context_parts
      let user_prompt :=
        "Context from documents: " ++ context ++ "\n        Question: " ++ user_query ++ "\n"
      match gen SYSTEM_PROMPT user_prompt with
      | .error g => .error (.gen g)
      | .ok answer => .ok ⟨sanitize_answer answer, sources⟩

/-! ## document_processor: extraction, per-file processing, scanning -/

/-- A page produced by extraction: text plus an optional 1-based page
number (absent for DOCX). -/
structure Page where
  text : List Char
  page_number : Option Nat
deriving DecidableEq

/-- A per-file extraction failure (corrupt or unparsable file); raised by
the extractors and caught inside `process_document`. -/
inductive ExtractionError
  | parseFailure (msg : String)
deriving DecidableEq

/-- `os.path.basename` on slash-separated paths. -/
def basenameL (p : List Char) : List Char :=
  ((p.reverse.takeWhile (· ≠ '/')).reverse)

/-- `Path(p).suffix.lower()`: the last dot-extension of the basename,
empty when the basename has no dot or only a leading (hidden-file) dot. -/
def suffixLower (p : List Char) : List Char :=
  let b := basenameL p
  let revExt := b.reverse.takeWhile (· ≠ '.')
  if revExt.length + 1 < b.length then
    ('.' :: revExt.reverse).map Char.toLower
  else []

/-- `os.path.relpath(file, base)` for the only shape the pipeline uses:
files discovered beneath the base directory. -/
def relPathL (file base : List Char) : List Char :=
  if isPrefixL (base ++ ['/']) file then file.drop (base.length + 1) else file

/-- `str(Path(rel).parent)` when the parent is not `"."`, else absent. -/
def parentL (rel : List Char) : Option (List Char) :=
  if '/' ∈ rel then some (((rel.reverse.dropWhile (· ≠ '/')).drop 1).reverse)
  else none

/-- A chunk record emitted by `process_document`; the two metadata keys
`file_path` and `file_type` are inlined as fields. -/
structure DocChunk where
  text : List Char
  source_file : List Char
  folder_path : Option (List Char)
  page_number : Option Nat
  chunk_index : Nat
  meta_file_path : List Char
  meta_file_type : String
deriving DecidableEq

/-- The chunks of one page, via `chunk_text_by_tokens` at its default
configuration `chunk_size=1000, chunk_overlap=200` (the guard never
fires there, so the error branch is unreachable). -/
def pageChunksOf (lenFn : List Char → Nat) (pt : List Char) : List (List Char) :=
  match chunk_text_by_tokens lenFn pt 1000 200 with
  | .ok r => r.1
  | .error _ => []

/-- `process_document(file_path, base_path)`: dispatch on the lowercased
extension, extract pages, chunk each page, and attach provenance
metadata; `enumerate` restarts `chunk_index` at 0 for every page.  An
extraction exception is caught, logged and yields no chunks for this
file. -/
def process_document
    (extractPdf extractDocx : List Char → Except ExtractionError (List Page))
    (lenFn : List Char → Nat) (file base : List Char) : List DocChunk :=
  let ext := suffixLower file
  let rel := relPathL file base
  let folder := parentL rel
  let build := fun (ftype : String) (pages : List Page) =>
    pages.flatMap (fun pg =>
      (pageChunksOf lenFn pg.text).enum.map (fun ic =>
        ⟨ic.2, basenameL file, folder, pg.page_number, ic.1, rel, ftype⟩))
  if ext = ".pdf".data then
    match extractPdf file with
    | .error _ => []
    | .ok pages => build "pdf" pages
  else if ext = ".docx".data ∨ ext = ".doc".data then
    match extractDocx file with
    | .error _ => []
    | .ok pages => build "docx" pages
  else []

/-- Supported extension test of `scan_and_process_documents`. -/
def isSupportedExt (ext : List Char) : Bool :=
  ext = ".pdf".data || ext = ".docx".data || ext = ".doc".data

/-- `scan_and_process_documents(data_folder)` over the ordered list of
files discovered by `rglob`: process every supported file, concatenate
the chunks, and count the supported files. -/
def scan_and_process_documents
    (extractPdf extractDocx : List Char → Except ExtractionError (List Page))
    (lenFn : List Char → Nat) (files : List (List Char)) (base : List Char) :
    List DocChunk × Nat :=
  match files with
  | [] => ([], 0)
  | f :: rest =>
    let r := scan_and_process_documents extractPdf extractDocx lenFn rest base
    if isSupportedExt (suffixLower f) then
      (process_document extractPdf extractDocx lenFn f base ++ r.1, r.2 + 1)
    else r

/-! ## vector_store: persisting chunk rows -/

/-- One row of the `document_chunks` table as written by
`store_embeddings`. -/
structure StoredRow where
  chunk_text : List Char
  embedding : Embedding
  source_file : List Char
  folder_path : Option (List Char)
  page_number : Option Nat
  chunk_index : Option Nat
  meta_file_path : List Char
  meta_file_type : String
deriving DecidableEq

/-- The per-row sanitization in `store_embeddings`: strip null bytes
(disallowed by PostgreSQL) and surrounding whitespace. -/
def sanitizeChunkText (t : List Char) : List Char :=
  pyStrip (t.filter (· ≠ '\x00'))

/-- `store_embeddings(chunks, embeddings)` against a database state:
reject a length mismatch with a ValueError before touching the
connection; otherwise build the row list — skipping every chunk whose
sanitized text is empty — and insert it as one committed batch. -/
def store_embeddings (db : List StoredRow) (chunks : List DocChunk)
    (embeddings : List Embedding) : Except String (List StoredRow) :=
  if chunks.length ≠ embeddings.length then
    .error "Mismatch between number of chunks and number of embeddings"
  else
    let values := (chunks.zip embeddings).filterMap (fun ce =>
      let t := sanitizeChunkText ce.1.text
      if t = [] then none
      else some ⟨t, ce.2, ce.1.source_file, ce.1.folder_path, ce.1.page_number,
                 some ce.1.chunk_index, ce.1.meta_file_path, ce.1.meta_file_type⟩)
    .ok (db ++ values)

/-! ## api.index: the ingestion pipeline entry point -/

/-- Errors escaping `load_documents_internal`. -/
inductive LoadError
  | emb (e : EmbeddingError)
  | store (msg : String)
deriving DecidableEq

/-- The sequential embedding loop of `load_documents_internal`: one
`get_embedding` call per chunk, aborting on the first failure. -/
def embedAll (svc : Nat → List Char → Except EmbeddingError Embedding) :
    List DocChunk → Except EmbeddingError (List Embedding)
  | [] => .ok []
  | c :: rest =>
    match get_embedding svc c.text with
    | .error e => .error e
    | .ok v =>
      match embedAll svc rest with
      | .error e => .error e
      | .ok vs => .ok (v :: vs)

/-- `load_documents_internal(data_folder)`: scan and chunk all documents,
short-circuit when no chunks were produced, embed every chunk text, write
one batch to the store, and return
`(chunks_processed, files_processed)` together with the resulting
database state.  `chunks_processed` is `len(all_chunks)`. -/
def load_documents_internal
    (extractPdf extractDocx : List Char → Except ExtractionError (List Page))
    (lenFn : List Char → Nat)
    (svc : Nat → List Char → Except EmbeddingError Embedding)
    (files : List (List Char)) (base : List Char) (db : List StoredRow) :
    Except LoadError (Nat × Nat × List StoredRow) :=
  let r := scan_and_process_documents extractPdf extractDocx lenFn files base
  let all_chunks := r.1
  if all_chunks = [] then .ok (0, r.2, db)
  else
    match embedAll svc all_chunks with
    | .error e => .error (.emb e)
    | .ok embeddings =>
      match store_embeddings db all_chunks embeddings with
      | .error m => .error (.store m)
      | .ok db2 => .ok (all_chunks.length, r.2, db2)

/-! ## Specification-side definitions and concrete collaborators

`dedupFirst` restates the citation-dedup requirement of the design in the
most direct recursive form; the theorems below show the fold inside
`query_rag` refines it.  The remaining definitions are concrete
instantiations of the collaborator parameters, used to exercise the
pipeline on explicit inputs. -/

/-- Keep the first occurrence of every element, preserving order. -/
def dedupFirst : List String → List String
  | [] => []
  | x :: xs => x :: dedupFirst (xs.filter (· ≠ x))
  termination_by l => l.length
  decreasing_by exact Nat.lt_succ_of_le (List.length_filter_le _ _)

/-- Key test: does the chunk belong to the given page number? -/
def samePage (pn : Option Nat) (c : DocChunk) : Bool :=
  decide (c.page_number = pn)

/-- Key test: does the chunk belong to the given (source_file, page
number) pair? -/
def sameKey (sf : List Char) (pn : Option Nat) (c : DocChunk) : Bool :=
  decide (c.source_file = sf) && decide (c.page_number = pn)

/-- A length function counting one token per character. -/
def charLen : List Char → Nat := fun l => l.length

/-- A length function under which a single character costs two tokens
(tokenizers do assign several tokens to some single characters). -/
def dblLen : List Char → Nat := fun l => 2 * l.length

/-- An embedding service that always succeeds. -/
def svcOk : Nat → List Char → Except EmbeddingError Embedding :=
  fun _ _ => .ok [1]

/-- An embedding service whose first response is a transient timeout and
whose every retransmission succeeds: the client retry recovers. -/
def svcTransient : Nat → List Char → Except EmbeddingError Embedding :=
  fun n _ => if n = 0 then .error .timeout else .ok [1]

/-- An embedding service that times out on every transmission: the retry
budget gets exhausted. -/
def svcAlwaysTimeout : Nat → List Char → Except EmbeddingError Embedding :=
  fun _ _ => .error .timeout

/-- An embedding service that fails, at every transmission, exactly on
the all-null-byte text. -/
def svcFailNull : Nat → List Char → Except EmbeddingError Embedding :=
  fun _ t => if t = ['\x00'] then .error .timeout else .ok [1]

/-- An extractor returning one page of text `"t"` with page number 1. -/
def extOnePage : List Char → Except ExtractionError (List Page) :=
  fun _ => .ok [⟨['t'], some 1⟩]

/-- An extractor returning two pages with distinct page numbers. -/
def extTwoPages : List Char → Except ExtractionError (List Page) :=
  fun _ => .ok [⟨['a'], some 1⟩, ⟨['b'], some 2⟩]

/-- An extractor returning one page of all-null-byte text. -/
def extNullPage : List Char → Except ExtractionError (List Page) :=
  fun _ => .ok [⟨['\x00'], some 1⟩]

/-- An extractor that always fails: a corrupt file. -/
def extFail : List Char → Except ExtractionError (List Page) :=
  fun _ => .error (.parseFailure "corrupt")

/-- A DOCX extractor returning a single unpaginated page. -/
def extDocxOne : List Char → Except ExtractionError (List Page) :=
  fun _ => .ok [⟨['x'], none⟩]

/-- A vector search that retrieves nothing. -/
def searchEmpty : Embedding → Nat → List RetrievedChunk := fun _ _ => []

/-- Two retrieved chunks sharing one citation, plus a distinct one. -/
def chunkA : RetrievedChunk := ⟨"t1", "r.pdf", some "a", some 1⟩

def chunkA2 : RetrievedChunk := ⟨"t2", "r.pdf", some "a", some 1⟩

def chunkB : RetrievedChunk := ⟨"t3", "s.pdf", none, none⟩

/-- A vector search retrieving the three chunks above, in that order. -/
def searchThree : Embedding → Nat → List RetrievedChunk :=
  fun _ _ => [chunkA, chunkA2, chunkB]

/-- A generation collaborator returning a fixed answer. -/
def genOk : String → String → Except String String := fun _ _ => .ok "ans"

/-- A generation collaborator that fails if ever invoked. -/
def genFail : String → String → Except String String :=
  fun _ _ => .error "generation invoked"

/-- A sample chunk record. -/
def sampleChunk : DocChunk := ⟨['t'], "r.pdf".data, none, some 1, 0, "r.pdf".data, "pdf"⟩

/-! ## Splitter lemmas

The chunk-size guarantee of the recursive splitter, proved for every
length function that is subadditive on concatenation, non-increasing
under stripping, and zero on the empty text (all true of a tokenizer
token count). -/

/-- A chunk is within budget, or is a single indivisible character. -/
def chunkOk (lenFn : List Char → Nat) (size : Nat) (c : List Char) : Prop :=
  lenFn c ≤ size ∨ c.length = 1

lemma totalOf_cons_zero (lenFn : List Char → Nat) (x : List Char)
    (xs : List (List Char)) :
    totalOf lenFn 0 (x :: xs) = lenFn x + totalOf lenFn 0 xs := by
  cases xs <;> simp [totalOf]

lemma totalOf_append_one_zero (lenFn : List Char → Nat) (xs : List (List Char))
    (d : List Char) :
    totalOf lenFn 0 (xs ++ [d]) = totalOf lenFn 0 xs + lenFn d := by
  induction xs with
  | nil => simp [totalOf]
  | cons x xs ih =>
    rw [List.cons_append, totalOf_cons_zero, totalOf_cons_zero, ih]
    omega

lemma intercalate_nil_le (lenFn : List Char → Nat)
    (hsub : ∀ a b, lenFn (a ++ b) ≤ lenFn a + lenFn b) (hnil : lenFn [] = 0) :
    ∀ docs, lenFn (intercalateL [] docs) ≤ totalOf lenFn 0 docs
  | [] => by simp [intercalateL, totalOf, hnil]
  | [d] => by simp [intercalateL, totalOf]
  | d :: r :: rest => by
    have h1 := hsub d (intercalateL [] (r :: rest))
    have h2 := intercalate_nil_le lenFn hsub hnil (r :: rest)
    have he : intercalateL [] (d :: r :: rest) = d ++ intercalateL [] (r :: rest) := by
      simp [intercalateL]
    rw [he, totalOf]
    · omega
    · simp

lemma joinDocs_le (lenFn : List Char → Nat)
    (hsub : ∀ a b, lenFn (a ++ b) ≤ lenFn a + lenFn b)
    (htrim : ∀ x, lenFn (pyStrip x) ≤ lenFn x) (hnil : lenFn [] = 0)
    (size : Nat) (cur : List (List Char)) (doc : List Char)
    (hcur : totalOf lenFn 0 cur ≤ size) (h : joinDocs [] cur = some doc) :
    lenFn doc ≤ size := by
  simp only [joinDocs] at h
  split at h
  · exact absurd h (by simp)
  · have hd : doc = pyStrip (intercalateL [] cur) := by
      simpa using h.symm
    calc lenFn doc = lenFn (pyStrip (intercalateL [] cur)) := by rw [hd]
      _ ≤ lenFn (intercalateL [] cur) := htrim _
      _ ≤ totalOf lenFn 0 cur := intercalate_nil_le lenFn hsub hnil cur
      _ ≤ size := hcur

lemma popLoop_spec (lenFn : List Char → Nat) (hnil : lenFn [] = 0)
    (size ov l : Nat) :
    ∀ cur, totalOf lenFn 0 (popLoop lenFn [] size ov l cur) ≤ ov ∧
      (totalOf lenFn 0 (popLoop lenFn [] size ov l cur) + l ≤ size ∨
        totalOf lenFn 0 (popLoop lenFn [] size ov l cur) = 0)
  | [] => by simp [popLoop, totalOf]
  | d :: rest => by
    rw [popLoop]
    simp only [hnil]
    split
    · exact popLoop_spec lenFn hnil size ov l rest
    · rename_i hcond
      omega

lemma mergeGo_spec (lenFn : List Char → Nat)
    (hsub : ∀ a b, lenFn (a ++ b) ≤ lenFn a + lenFn b)
    (htrim : ∀ x, lenFn (pyStrip x) ≤ lenFn x) (hnil : lenFn [] = 0)
    (size ov : Nat) :
    ∀ ds cur acc, (∀ d ∈ ds, lenFn d < size) → totalOf lenFn 0 cur ≤ size →
      (∀ c ∈ acc.1, lenFn c ≤ size) →
      (∀ c ∈ (mergeGo lenFn [] size ov ds cur acc).1, lenFn c ≤ size) ∧
        (mergeGo lenFn [] size ov ds cur acc).2 = acc.2
  | [], cur, acc => by
    intro _ hcur hacc
    rw [mergeGo]
    cases h : joinDocs [] cur with
    | none => exact ⟨hacc, rfl⟩
    | some doc =>
      refine ⟨?_, rfl⟩
      intro c hc
      rcases List.mem_append.mp hc with h1 | h1
      · exact hacc c h1
      · have : c = doc := by simpa using h1
        subst this
        exact joinDocs_le lenFn hsub htrim hnil size cur c hcur h
  | d :: ds, cur, acc => by
    intro hgood hcur hacc
    have hl : lenFn d < size := hgood d (by simp)
    have hgood' : ∀ x ∈ ds, lenFn x < size := fun x hx => hgood x (by simp [hx])
    rw [mergeGo]
    simp only [hnil, ite_self, Nat.add_zero]
    by_cases hover : totalOf lenFn 0 cur + lenFn d > size
    · rw [if_pos hover]
      have hwarn : ¬ (totalOf lenFn 0 cur > size) := by omega
      rw [if_neg hwarn]
      by_cases hne : cur ≠ []
      · rw [if_pos hne]
        have hpop := popLoop_spec lenFn hnil size ov (lenFn d) cur
        have htot : totalOf lenFn 0 (popLoop lenFn [] size ov (lenFn d) cur ++ [d])
            ≤ size := by
          rw [totalOf_append_one_zero]
          omega
        have hdocs : ∀ c ∈ (match joinDocs [] cur with
            | none => acc.1
            | some doc => acc.1 ++ [doc]), lenFn c ≤ size := by
          cases h : joinDocs [] cur with
          | none => exact hacc
          | some doc =>
            intro c hc
            rcases List.mem_append.mp hc with h1 | h1
            · exact hacc c h1
            · have : c = doc := by simpa using h1
              subst this
              exact joinDocs_le lenFn hsub htrim hnil size cur c hcur h
        exact mergeGo_spec lenFn hsub htrim hnil size ov ds _ _ hgood' htot hdocs
      · exfalso
        push_neg at hne
        subst hne
        simp only [totalOf] at hover
        omega
    · rw [if_neg hover]
      have htot : totalOf lenFn 0 (cur ++ [d]) ≤ size := by
        rw [totalOf_append_one_zero]
        omega
      exact mergeGo_spec lenFn hsub htrim hnil size ov ds _ _ hgood' htot hacc

lemma mergeSplits_spec (lenFn : List Char → Nat)
    (hsub : ∀ a b, lenFn (a ++ b) ≤ lenFn a + lenFn b)
    (htrim : ∀ x, lenFn (pyStrip x) ≤ lenFn x) (hnil : lenFn [] = 0)
    (size ov : Nat) (good : List (List Char))
    (hgood : ∀ d ∈ good, lenFn d < size) :
    (∀ c ∈ (mergeSplits lenFn [] size ov good).1, lenFn c ≤ size) ∧
      (mergeSplits lenFn [] size ov good).2 = 0 := by
  unfold mergeSplits
  exact mergeGo_spec lenFn hsub htrim hnil size ov good [] ([], 0) hgood
    (by simp [totalOf]) (by simp)

lemma splitKeep_nil_singleton (t : List Char) :
    ∀ s ∈ splitKeep [] t, s.length = 1 := by
  intro s hs
  rw [splitKeep, if_pos rfl] at hs
  have h2 := List.mem_of_mem_filter hs
  obtain ⟨c, _, hc⟩ := List.mem_map.mp h2
  rw [← hc]
  rfl

lemma splitLoop_none_spec (lenFn : List Char → Nat)
    (hsub : ∀ a b, lenFn (a ++ b) ≤ lenFn a + lenFn b)
    (htrim : ∀ x, lenFn (pyStrip x) ≤ lenFn x) (hnil : lenFn [] = 0)
    (size ov : Nat) :
    ∀ splits good acc, (∀ s ∈ splits, s.length = 1) →
      (∀ g ∈ good, lenFn g < size) →
      (∀ c ∈ acc.1, chunkOk lenFn size c) → acc.2 = 0 →
      (∀ c ∈ (splitLoop lenFn size ov none splits good acc).1, chunkOk lenFn size c) ∧
        (splitLoop lenFn size ov none splits good acc).2 = 0
  | [], good, acc => by
    intro _ hgood hacc haccw
    rw [splitLoop]
    by_cases hg : good ≠ []
    · rw [if_pos hg]
      have hm := mergeSplits_spec lenFn hsub htrim hnil size ov good hgood
      refine ⟨?_, by simp [haccw, hm.2]⟩
      intro c hc
      rcases List.mem_append.mp hc with h | h
      · exact hacc c h
      · exact Or.inl (hm.1 c h)
    · rw [if_neg hg]
      exact ⟨hacc, haccw⟩
  | s :: rest2, good, acc => by
    intro hsing hgood hacc haccw
    have hsing' : ∀ x ∈ rest2, x.length = 1 := fun x hx => hsing x (by simp [hx])
    rw [splitLoop]
    by_cases hlen : lenFn s < size
    · rw [if_pos hlen]
      refine splitLoop_none_spec lenFn hsub htrim hnil size ov rest2 (good ++ [s]) acc
        hsing' ?_ hacc haccw
      intro g hg
      rcases List.mem_append.mp hg with h | h
      · exact hgood g h
      · have : g = s := by simpa using h
        subst this
        exact hlen
    · rw [if_neg hlen]
      by_cases hg : good ≠ []
      · rw [if_pos hg]
        have hm := mergeSplits_spec lenFn hsub htrim hnil size ov good hgood
        refine splitLoop_none_spec lenFn hsub htrim hnil size ov rest2 [] _
          hsing' (by simp) ?_ (by simp [haccw, hm.2])
        intro c hc
        rcases List.mem_append.mp hc with h | h
        · rcases List.mem_append.mp h with h2 | h2
          · exact hacc c h2
          · exact Or.inl (hm.1 c h2)
        · have : c = s := by simpa using h
          subst this
          exact Or.inr (hsing c (by simp))
      · rw [if_neg hg]
        refine splitLoop_none_spec lenFn hsub htrim hnil size ov rest2 [] _
          hsing' (by simp) ?_ (by simp [haccw])
        intro c hc
        rcases List.mem_append.mp hc with h | h
        · exact hacc c h
        · have : c = s := by simpa using h
          subst this
          exact Or.inr (hsing c (by simp))

lemma splitLoop_some_spec (lenFn : List Char → Nat)
    (hsub : ∀ a b, lenFn (a ++ b) ≤ lenFn a + lenFn b)
    (htrim : ∀ x, lenFn (pyStrip x) ≤ lenFn x) (hnil : lenFn [] = 0)
    (size ov : Nat) (rs : List (List Char))
    (hrec : ∀ s, (∀ c ∈ (splitTextCore lenFn size ov rs s).1, chunkOk lenFn size c) ∧
      (splitTextCore lenFn size ov rs s).2 = 0) :
    ∀ splits good acc, (∀ g ∈ good, lenFn g < size) →
      (∀ c ∈ acc.1, chunkOk lenFn size c) → acc.2 = 0 →
      (∀ c ∈ (splitLoop lenFn size ov (some rs) splits good acc).1, chunkOk lenFn size c) ∧
        (splitLoop lenFn size ov (some rs) splits good acc).2 = 0
  | [], good, acc => by
    intro hgood hacc haccw
    rw [splitLoop]
    by_cases hg : good ≠ []
    · rw [if_pos hg]
      have hm := mergeSplits_spec lenFn hsub htrim hnil size ov good hgood
      refine ⟨?_, by simp [haccw, hm.2]⟩
      intro c hc
      rcases List.mem_append.mp hc with h | h
      · exact hacc c h
      · exact Or.inl (hm.1 c h)
    · rw [if_neg hg]
      exact ⟨hacc, haccw⟩
  | s :: rest2, good, acc => by
    intro hgood hacc haccw
    rw [splitLoop]
    by_cases hlen : lenFn s < size
    · rw [if_pos hlen]
      refine splitLoop_some_spec lenFn hsub htrim hnil size ov rs hrec rest2
        (good ++ [s]) acc ?_ hacc haccw
      intro g hg
      rcases List.mem_append.mp hg with h | h
      · exact hgood g h
      · have : g = s := by simpa using h
        subst this
        exact hlen
    · rw [if_neg hlen]
      have hr := hrec s
      by_cases hg : good ≠ []
      · rw [if_pos hg]
        have hm := mergeSplits_spec lenFn hsub htrim hnil size ov good hgood
        refine splitLoop_some_spec lenFn hsub htrim hnil size ov rs hrec rest2 [] _
          (by simp) ?_ (by simp [haccw, hm.2, hr.2])
        intro c hc
        rcases List.mem_append.mp hc with h | h
        · rcases List.mem_append.mp h with h2 | h2
          · exact hacc c h2
          · exact Or.inl (hm.1 c h2)
        · exact hr.1 c h
      · rw [if_neg hg]
        refine splitLoop_some_spec lenFn hsub htrim hnil size ov rs hrec rest2 [] _
          (by simp) ?_ (by simp [haccw, hr.2])
        intro c hc
        rcases List.mem_append.mp hc with h | h
        · exact hacc c h
        · exact hr.1 c h

lemma splitTextCore_spec (lenFn : List Char → Nat)
    (hsub : ∀ a b, lenFn (a ++ b) ≤ lenFn a + lenFn b)
    (htrim : ∀ x, lenFn (pyStrip x) ≤ lenFn x) (hnil : lenFn [] = 0)
    (size ov : Nat) :
    ∀ seps, ([] : List Char) ∈ seps → ∀ text,
      (∀ c ∈ (splitTextCore lenFn size ov seps text).1, chunkOk lenFn size c) ∧
        (splitTextCore lenFn size ov seps text).2 = 0
  | [], hmem, _ => absurd hmem (by simp)
  | [s], hmem, text => by
    have hs : s = [] := (List.mem_singleton.mp hmem).symm
    subst hs
    rw [splitTextCore]
    exact splitLoop_none_spec lenFn hsub htrim hnil size ov (splitKeep [] text) [] ([], 0)
      (splitKeep_nil_singleton text) (by simp) (by simp) rfl
  | s :: r :: rest, hmem, text => by
    rw [splitTextCore]
    by_cases hse : s = []
    · rw [if_pos hse]
      exact splitLoop_none_spec lenFn hsub htrim hnil size ov (splitKeep [] text) [] ([], 0)
        (splitKeep_nil_singleton text) (by simp) (by simp) rfl
    · rw [if_neg hse]
      have hmem' : ([] : List Char) ∈ r :: rest := by
        rcases List.mem_cons.mp hmem with h | h
        · exact absurd h.symm hse
        · exact h
      by_cases hc : containsSub s text = true
      · rw [if_pos hc]
        exact splitLoop_some_spec lenFn hsub htrim hnil size ov (r :: rest)
          (fun s2 => splitTextCore_spec lenFn hsub htrim hnil size ov (r :: rest) hmem' s2)
          (splitKeep s text) [] ([], 0) (by simp) (by simp) rfl
      · rw [if_neg hc]
        exact splitTextCore_spec lenFn hsub htrim hnil size ov (r :: rest) hmem' text

/-! ## Lemmas about citations, scanning and storing -/

lemma pyStrip_length_le (l : List Char) : (pyStrip l).length ≤ l.length := by
  unfold pyStrip
  calc ((l.dropWhile pyIsSpace).reverse.dropWhile pyIsSpace).reverse.length
      = ((l.dropWhile pyIsSpace).reverse.dropWhile pyIsSpace).length := by
        rw [List.length_reverse]
    _ ≤ (l.dropWhile pyIsSpace).reverse.length :=
        (List.dropWhile_sublist pyIsSpace).length_le
    _ = (l.dropWhile pyIsSpace).length := by rw [List.length_reverse]
    _ ≤ l.length := (List.dropWhile_sublist pyIsSpace).length_le

lemma dedupFirst_subset : ∀ l : List String, ∀ y ∈ dedupFirst l, y ∈ l
  | [] => by simp [dedupFirst]
  | x :: xs => by
    intro y hy
    rw [dedupFirst] at hy
    rcases List.mem_cons.mp hy with h | h
    · simp [h]
    · have := dedupFirst_subset (xs.filter (· ≠ x)) y h
      exact List.mem_cons_of_mem x (List.mem_of_mem_filter this)
  termination_by l => l.length
  decreasing_by exact Nat.lt_succ_of_le (List.length_filter_le _ _)

lemma dedupFirst_nodup : ∀ l : List String, (dedupFirst l).Nodup
  | [] => by simp [dedupFirst]
  | x :: xs => by
    rw [dedupFirst]
    refine List.nodup_cons.mpr ⟨?_, dedupFirst_nodup (xs.filter (· ≠ x))⟩
    intro hx
    have := dedupFirst_subset _ x hx
    have h2 := List.of_mem_filter this
    simp at h2
  termination_by l => l.length
  decreasing_by exact Nat.lt_succ_of_le (List.length_filter_le _ _)

lemma buildSources_eq : ∀ (l : List RetrievedChunk) (acc : List String),
    buildSources l acc =
      acc ++ dedupFirst ((l.map format_source_citation).filter (fun s => decide (s ∉ acc)))
  | [], acc => by simp [buildSources, dedupFirst]
  | c :: l, acc => by
    rw [buildSources]
    by_cases hmem : format_source_citation c ∈ acc
    · rw [if_pos hmem, buildSources_eq l acc]
      have : (((c :: l).map format_source_citation).filter (fun s => decide (s ∉ acc)))
          = ((l.map format_source_citation).filter (fun s => decide (s ∉ acc))) := by
        simp [hmem]
      rw [this]
    · rw [if_neg hmem, buildSources_eq l (acc ++ [format_source_citation c])]
      have hhead : (((c :: l).map format_source_citation).filter (fun s => decide (s ∉ acc)))
          = format_source_citation c ::
            ((l.map format_source_citation).filter (fun s => decide (s ∉ acc))) := by
        simp [hmem]
      rw [hhead, dedupFirst]
      have hfil : ((l.map format_source_citation).filter
            (fun s => decide (s ∉ acc ++ [format_source_citation c])))
          = (((l.map format_source_citation).filter (fun s => decide (s ∉ acc))).filter
            (· ≠ format_source_citation c)) := by
        rw [List.filter_filter]
        apply List.filter_congr
        intro s _
        by_cases h1 : s = format_source_citation c <;> by_cases h2 : s ∈ acc <;>
          simp [h1, h2]
      rw [hfil]
      simp

lemma buildSources_nil (l : List RetrievedChunk) :
    buildSources l [] = dedupFirst (l.map format_source_citation) := by
  rw [buildSources_eq l []]
  simp

lemma scan_append (extP extD : List Char → Except ExtractionError (List Page))
    (lenFn : List Char → Nat) (base : List Char) :
    ∀ fs1 fs2 : List (List Char),
      (scan_and_process_documents extP extD lenFn (fs1 ++ fs2) base).1 =
        (scan_and_process_documents extP extD lenFn fs1 base).1 ++
          (scan_and_process_documents extP extD lenFn fs2 base).1 ∧
      (scan_and_process_documents extP extD lenFn (fs1 ++ fs2) base).2 =
        (scan_and_process_documents extP extD lenFn fs1 base).2 +
          (scan_and_process_documents extP extD lenFn fs2 base).2
  | [], fs2 => by simp [scan_and_process_documents]
  | f :: fs1, fs2 => by
    have ih := scan_append extP extD lenFn base fs1 fs2
    rw [List.cons_append, scan_and_process_documents, scan_and_process_documents]
    by_cases hs : isSupportedExt (suffixLower f) = true
    · rw [if_pos hs, if_pos hs]
      constructor
      · simp [ih.1]
      · simp [ih.2]
        omega
    · rw [if_neg hs, if_neg hs]
      exact ih

lemma embedAll_length (svc : Nat → List Char → Except EmbeddingError Embedding) :
    ∀ chunks embs, embedAll svc chunks = .ok embs → embs.length = chunks.length
  | [], embs => by
    intro h
    simp [embedAll] at h
    simp [← h]
  | c :: rest, embs => by
    intro h
    rw [embedAll] at h
    cases hg : get_embedding svc c.text with
    | error e => rw [hg] at h; exact absurd h (by simp)
    | ok v =>
      rw [hg] at h
      cases hr : embedAll svc rest with
      | error e => rw [hr] at h; exact absurd h (by simp)
      | ok vs =>
        rw [hr] at h
        have : v :: vs = embs := by simpa using h
        rw [← this]
        simp [embedAll_length svc rest vs hr]

lemma zip_filterMap_length (f : DocChunk × Embedding → StoredRow) :
    ∀ (chunks : List DocChunk) (embs : List Embedding),
      chunks.length = embs.length →
      ((chunks.zip embs).filterMap (fun ce =>
          if sanitizeChunkText ce.1.text = [] then none else some (f ce))).length =
        (chunks.filter (fun c => decide (sanitizeChunkText c.text ≠ []))).length
  | [], _, _ => by simp
  | _ :: _, [], h => by simp at h
  | c :: cs, e :: es, h => by
    have ih := zip_filterMap_length f cs es (by simpa using h)
    by_cases hz : sanitizeChunkText c.text = []
    · simp [List.zip_cons_cons, hz, ih]
    · simp [List.zip_cons_cons, hz, ih]

lemma filter_flatMap {α β : Type} (l : List α) (f : α → List β) (p : β → Bool) :
    (l.flatMap f).filter p = l.flatMap (fun a => (f a).filter p) := by
  induction l with
  | nil => simp
  | cons a l ih => simp [List.filter_append, ih]

lemma block_map_chunk_index (lenFn : List Char → Nat) (file base : List Char)
    (ftype : String) (pg : Page) :
    (((pageChunksOf lenFn pg.text).enum.map (fun ic =>
        (⟨ic.2, basenameL file, parentL (relPathL file base), pg.page_number, ic.1,
          relPathL file base, ftype⟩ : DocChunk))).map (fun c => c.chunk_index)) =
      List.range ((pageChunksOf lenFn pg.text).enum.map (fun ic =>
        (⟨ic.2, basenameL file, parentL (relPathL file base), pg.page_number, ic.1,
          relPathL file base, ftype⟩ : DocChunk))).length := by
  rw [List.map_map]
  have hcomp : ((fun c : DocChunk => c.chunk_index) ∘ (fun ic : Nat × List Char =>
      (⟨ic.2, basenameL file, parentL (relPathL file base), pg.page_number, ic.1,
        relPathL file base, ftype⟩ : DocChunk))) = Prod.fst := by
    funext ic
    rfl
  rw [hcomp, List.enum_map_fst]
  simp [List.enum_length]

lemma flat_filter_range (bchunks : Page → List DocChunk)
    (hpn : ∀ pg c, c ∈ bchunks pg → c.page_number = pg.page_number)
    (hidx : ∀ pg, (bchunks pg).map (fun c => c.chunk_index) =
      List.range (bchunks pg).length) :
    ∀ pages : List Page, (pages.map Page.page_number).Nodup → ∀ pn : Option Nat,
      (((pages.flatMap bchunks).filter (samePage pn)).map (fun c => c.chunk_index)) =
        List.range ((pages.flatMap bchunks).filter (samePage pn)).length
  | [], _, pn => by simp
  | pg :: rest, hnd, pn => by
    have hnd1 : pg.page_number ∉ rest.map Page.page_number :=
      (List.nodup_cons.mp (by simpa using hnd)).1
    have hnd2 : (rest.map Page.page_number).Nodup :=
      (List.nodup_cons.mp (by simpa using hnd)).2
    rw [List.flatMap_cons, List.filter_append]
    by_cases hp : pg.page_number = pn
    · have hrest : (rest.flatMap bchunks).filter (samePage pn) = [] := by
        rw [List.filter_eq_nil_iff]
        intro c hc
        obtain ⟨pg2, hpg2, hcpg2⟩ := List.mem_flatMap.mp hc
        have h1 : c.page_number = pg2.page_number := hpn pg2 c hcpg2
        have h2 : pg2.page_number ≠ pn := by
          intro heq
          apply hnd1
          have hpp : pg.page_number = pg2.page_number := by rw [hp, heq]
          rw [hpp]
          exact List.mem_map_of_mem Page.page_number hpg2
        simp [samePage, h1, h2]
      have hhead : (bchunks pg).filter (samePage pn) = bchunks pg := by
        rw [List.filter_eq_self]
        intro c hc
        simp [samePage, hpn pg c hc, hp]
      rw [hrest, hhead, List.append_nil]
      exact hidx pg
    · have hhead : (bchunks pg).filter (samePage pn) = [] := by
        rw [List.filter_eq_nil_iff]
        intro c hc
        simp [samePage, hpn pg c hc, hp]
      rw [hhead, List.nil_append]
      exact flat_filter_range bchunks hpn hidx rest hnd2 pn

lemma createWithRetries_ok (svc : Nat → List Char → Except EmbeddingError Embedding)
    (text : List Char) (attempt r : Nat) (v : Embedding)
    (h : svc attempt text = .ok v) :
    createWithRetries svc text attempt r = .ok v := by
  cases r with
  | zero => simpa [createWithRetries] using h
  | succ r => simp [createWithRetries, h]

lemma createWithRetries_transient
    (svc : Nat → List Char → Except EmbeddingError Embedding)
    (text : List Char) (attempt r : Nat) (e : EmbeddingError)
    (h : svc attempt text = .error e) (ht : isTransient e = true) :
    createWithRetries svc text attempt (r + 1) =
      createWithRetries svc text (attempt + 1) r := by
  simp [createWithRetries, h, ht]

/-! ## Claim theorems -/

/-- Claim C4, counterexample: the claim states that every call with
chunk_size ≤ overlap is rejected, in particular chunk_size = overlap.
At chunk_size = overlap = 5 the call is NOT rejected: the library guard
only fires for overlap strictly greater than chunk_size, so the call
returns chunks. -/
theorem C4_counterexample :
    (chunk_text_by_tokens charLen ['a'] 5 5).isOk = true := rfl

/-- Claim C4, amended: a chunking call is rejected with a configuration
error exactly when overlap exceeds chunk_size strictly; calls with
chunk_size = overlap pass validation and return chunks. -/
theorem C4_amended (lenFn : List Char → Nat) (text : List Char)
    (chunk_size chunk_overlap : Nat) :
    (chunk_text_by_tokens lenFn text chunk_size chunk_overlap).isOk = true ↔
      chunk_overlap ≤ chunk_size := by
  by_cases h : chunk_overlap > chunk_size
  · simp [chunk_text_by_tokens, h, Except.isOk, Except.toBool]
  · simp [chunk_text_by_tokens, h, Except.isOk, Except.toBool]
    omega

/-- Witness for C4_amended at a concrete accepted configuration. -/
theorem C4_witness :
    (chunk_text_by_tokens charLen "ab".data 7 3).isOk = true :=
  (C4_amended charLen "ab".data 7 3).mpr (by omega)

/-- Claim C5, counterexample: under a length function that prices the
single character `a` at two tokens, the call with chunk_size 1 emits the
oversized chunk as-is, and the splitter logs zero oversize warnings —
the oversized chunk is NOT flagged, contrary to the claim. -/
theorem C5_counterexample :
    chunk_text_by_tokens dblLen ['a'] 1 0 = .ok ([['a']], 0) ∧ dblLen ['a'] > 1 := by
  constructor
  · simp [chunk_text_by_tokens, splitTextCore, splitLoop, SEPARATORS, mergeSplits,
      mergeGo, joinDocs, containsSub, isPrefixL, splitKeep, dblLen, totalOf,
      intercalateL, pyStrip, pyIsSpace]
  · simp [dblLen]

/-- Claim C5, amended: for every length function that is subadditive on
concatenation, non-increasing under stripping and zero on the empty text,
every chunk emitted by `chunk_text_by_tokens` has length at most
chunk_size, except that an indivisible single character whose length
exceeds the budget is emitted as-is — and no oversize flag (warning) is
ever produced. -/
theorem C5_amended (lenFn : List Char → Nat)
    (hsub : ∀ a b, lenFn (a ++ b) ≤ lenFn a + lenFn b)
    (htrim : ∀ x, lenFn (pyStrip x) ≤ lenFn x) (hnil : lenFn [] = 0)
    (text : List Char) (chunk_size chunk_overlap : Nat)
    (res : List (List Char) × Nat)
    (h : chunk_text_by_tokens lenFn text chunk_size chunk_overlap = .ok res) :
    (∀ c ∈ res.1, lenFn c ≤ chunk_size ∨ c.length = 1) ∧ res.2 = 0 := by
  have hmem : ([] : List Char) ∈ SEPARATORS := by simp [SEPARATORS]
  unfold chunk_text_by_tokens at h
  split at h
  · exact absurd h (by simp)
  · have hs := splitTextCore_spec lenFn hsub htrim hnil chunk_size chunk_overlap
      SEPARATORS hmem text
    have hres : splitTextCore lenFn chunk_size chunk_overlap SEPARATORS text = res := by
      simpa using h
    rw [hres] at hs
    exact ⟨fun c hc => hs.1 c hc, hs.2⟩

/-- Witness for C5_amended with the character-count length function on a
concrete text. -/
theorem C5_witness :
    (∀ c ∈ (splitTextCore charLen 5 2 SEPARATORS "hi there world".data).1,
      charLen c ≤ 5 ∨ c.length = 1) ∧
      (splitTextCore charLen 5 2 SEPARATORS "hi there world".data).2 = 0 :=
  C5_amended charLen
    (fun a b => by simp [charLen])
    (fun x => pyStrip_length_le x)
    rfl
    "hi there world".data 5 2 _ rfl

/-- Claim C2, counterexample: the claim states that an input containing
an inline-code span reduces to the bare inner text with no residual
markers; in fact the single-backtick markers survive sanitization
unchanged (only triple-backtick fenced blocks are handled). -/
theorem C2_counterexample :
    sanitize_answer "`code`" = "`code`" := by decide

/-- Claim C2, amended: sanitization removes fenced code blocks entirely,
unwraps bold/italic emphasis, strips heading markers at line start,
replaces links by their display text and trims whitespace — but leaves
inline single-backtick code markers in place: the compound input keeps
the backticks around `code`. -/
theorem C2_amended :
    sanitize_answer "**bold**\n`code`\n# Heading\n[text](url)"
        = "bold\n`code`\nHeading\ntext" ∧
      sanitize_answer "```x\ny```" = "" ∧
      sanitize_answer "  __a__ and _b_  " = "a and b" := by
  refine ⟨by decide, by decide, by decide⟩

/-- Claim C3 (confirmed): a transient embedding-service failure (timeout,
rate limit) is retried by the client rather than failing immediately — a
transient first response followed by a successful retransmission makes
the embedding operation succeed — and the failure becomes fatal only
once the retry budget is exhausted, at which point it propagates to the
enclosing query request and to the enclosing ingestion run. -/
theorem C3_confirmed :
    (∀ svc text v e, isTransient e = true → svc 0 text = .error e →
      svc 1 text = .ok v → get_embedding svc text = .ok v) ∧
    (∀ svc text e0 e1 e2, isTransient e0 = true → isTransient e1 = true →
      svc 0 text = .error e0 → svc 1 text = .error e1 → svc 2 text = .error e2 →
      get_embedding svc text = .error e2) ∧
    (∀ svc search gen q k e, get_embedding svc (String.data q) = .error e →
      query_rag svc search gen q k = .error (.emb e)) ∧
    (∀ extP extD lenFn svc files base db c cs e,
      (scan_and_process_documents extP extD lenFn files base).1 = c :: cs →
      get_embedding svc c.text = .error e →
      load_documents_internal extP extD lenFn svc files base db = .error (.emb e)) := by
  refine ⟨?_, ?_, ?_, ?_⟩
  · intro svc text v e ht h0 h1
    show createWithRetries svc text 0 (1 + 1) = .ok v
    rw [createWithRetries_transient svc text 0 1 e h0 ht]
    exact createWithRetries_ok svc text 1 1 v h1
  · intro svc text e0 e1 e2 ht0 ht1 h0 h1 h2
    show createWithRetries svc text 0 (1 + 1) = .error e2
    rw [createWithRetries_transient svc text 0 1 e0 h0 ht0]
    show createWithRetries svc text 1 (0 + 1) = .error e2
    rw [createWithRetries_transient svc text 1 0 e1 h1 ht1]
    exact h2
  · intro svc search gen q k e hsvc
    simp [query_rag, hsvc]
  · intro extP extD lenFn svc files base db c cs e hscan hsvc
    simp [load_documents_internal, hscan, embedAll, hsvc]

/-- Witness for C3_confirmed: a transient-then-success service makes the
embedding succeed; an always-timing-out service exhausts the retry
budget, and that exhausted failure aborts a concrete query and a
concrete one-file ingestion run. -/
theorem C3_witness :
    get_embedding svcTransient "q".data = .ok [1] ∧
      get_embedding svcAlwaysTimeout "q".data = .error .timeout ∧
      query_rag svcAlwaysTimeout searchEmpty genOk "q" 5 = .error (.emb .timeout) ∧
      load_documents_internal extOnePage extFail charLen svcAlwaysTimeout
        ["data/r.pdf".data] "data".data [] = .error (.emb .timeout) := by
  refine ⟨?_, ?_, ?_, ?_⟩
  · exact C3_confirmed.1 svcTransient "q".data [1] .timeout rfl rfl rfl
  · exact C3_confirmed.2.1 svcAlwaysTimeout "q".data .timeout .timeout .timeout
      rfl rfl rfl rfl rfl
  · exact C3_confirmed.2.2.1 svcAlwaysTimeout searchEmpty genOk "q" 5 .timeout rfl
  · refine C3_confirmed.2.2.2 extOnePage extFail charLen svcAlwaysTimeout
      ["data/r.pdf".data] "data".data [] sampleChunk [] .timeout ?_ rfl
    simp [scan_and_process_documents, process_document, extOnePage, pageChunksOf,
      chunk_text_by_tokens, splitTextCore, splitLoop, SEPARATORS, mergeSplits,
      mergeGo, joinDocs, containsSub, isPrefixL, splitKeep, charLen, totalOf,
      intercalateL, pyStrip, pyIsSpace, suffixLower, basenameL, relPathL, parentL,
      isSupportedExt, sampleChunk]

/-- Claim C10 (confirmed): a store-write call with mismatched chunk and
embedding counts raises a ValueError before any database work, and the
error carries no new database state — the stored rows are unchanged. -/
theorem C10_confirmed (db : List StoredRow) (chunks : List DocChunk)
    (embeddings : List Embedding) (h : chunks.length ≠ embeddings.length) :
    store_embeddings db chunks embeddings =
      .error "Mismatch between number of chunks and number of embeddings" := by
  simp [store_embeddings, h]

/-- Witness for C10_confirmed at a concrete mismatched call. -/
theorem C10_witness :
    store_embeddings [] [sampleChunk] [] =
      .error "Mismatch between number of chunks and number of embeddings" :=
  C10_confirmed [] [sampleChunk] [] (by decide)

/-- Claim C6 (confirmed): when retrieval returns zero results, `query_rag`
returns exactly the fixed fallback answer with an empty sources list, for
every generation collaborator — so generation is never consulted and no
error is raised. -/
theorem C6_confirmed (svc : Nat → List Char → Except EmbeddingError Embedding)
    (search : Embedding → Nat → List RetrievedChunk)
    (gen : String → String → Except String String) (q : String) (k : Nat)
    (e : Embedding) (hemb : svc 0 (String.data q) = .ok e)
    (hsearch : search e k = []) :
    query_rag svc search gen q k = .ok ⟨FALLBACK_ANSWER, []⟩ := by
  have hge : get_embedding svc (String.data q) = .ok e :=
    createWithRetries_ok svc (String.data q) 0 OPENAI_MAX_RETRIES e hemb
  simp [query_rag, hge, hsearch]

/-- Witness for C6_confirmed: the generation collaborator here fails on
every invocation, yet the query still returns the fallback. -/
theorem C6_witness :
    query_rag svcOk searchEmpty genFail "q" 5 = .ok ⟨FALLBACK_ANSWER, []⟩ :=
  C6_confirmed svcOk searchEmpty genFail "q" 5 [1] rfl rfl

/-- Claim C7 (confirmed): citation formatting joins the truthy fields in
the order folder_path, source_file, "Page n" with the fixed separator
`" > "`, omitting absent fields; and the sources list produced by a
successful query is the first-occurrence deduplication of the citations
of the retrieved chunks, in retrieval order, hence duplicate-free. -/
theorem C7_confirmed :
    (∀ t sf f p, f ≠ "" → p ≠ 0 →
      format_source_citation ⟨t, sf, some f, some p⟩ =
        f ++ " > " ++ (sf ++ " > " ++ ("Page " ++ toString p))) ∧
    (∀ t sf p, p ≠ 0 →
      format_source_citation ⟨t, sf, none, some p⟩ =
        sf ++ " > " ++ ("Page " ++ toString p)) ∧
    (∀ t sf f, f ≠ "" →
      format_source_citation ⟨t, sf, some f, none⟩ = f ++ " > " ++ sf) ∧
    (∀ t sf, format_source_citation ⟨t, sf, none, none⟩ = sf) ∧
    (∀ svc search gen q k e chunks a,
      svc 0 (String.data q) = .ok e → search e k = chunks → chunks ≠ [] →
      (∀ sp up, gen sp up = .ok a) →
      query_rag svc search gen q k =
          .ok ⟨sanitize_answer a, dedupFirst (chunks.map format_source_citation)⟩ ∧
        (dedupFirst (chunks.map format_source_citation)).Nodup) := by
  refine ⟨?_, ?_, ?_, ?_, ?_⟩
  · intro t sf f p hf hp
    simp [format_source_citation, joinWithSep, hf, hp]
  · intro t sf p hp
    simp [format_source_citation, joinWithSep, hp]
  · intro t sf f hf
    simp [format_source_citation, joinWithSep, hf]
  · intro t sf
    simp [format_source_citation, joinWithSep]
  · intro svc search gen q k e chunks a hemb hsearch hne hgen
    have hge : get_embedding svc (String.data q) = .ok e :=
      createWithRetries_ok svc (String.data q) 0 OPENAI_MAX_RETRIES e hemb
    have hq : query_rag svc search gen q k =
        .ok ⟨sanitize_answer a, buildSources chunks []⟩ := by
      simp [query_rag, hge, hsearch, hne, hgen]
    rw [hq, buildSources_nil]
    exact ⟨rfl, dedupFirst_nodup _⟩

/-- Witness for C7_confirmed on a retrieval containing a duplicated
citation. -/
theorem C7_witness :
    query_rag svcOk searchThree genOk "q" 3 =
        .ok ⟨sanitize_answer "ans",
          dedupFirst ([chunkA, chunkA2, chunkB].map format_source_citation)⟩ ∧
      (dedupFirst ([chunkA, chunkA2, chunkB].map format_source_citation)).Nodup :=
  C7_confirmed.2.2.2.2 svcOk searchThree genOk "q" 3 [1] [chunkA, chunkA2, chunkB]
    "ans" rfl rfl (by simp) (fun _ _ => rfl)

/-- Claim C8 (confirmed): an extraction failure is absorbed inside
`process_document` (the corrupt file yields no chunks), and the scan over
a batch containing the corrupt file yields exactly the chunks of the
other files — a corrupt file never blocks its siblings. -/
theorem C8_confirmed (extP extD : List Char → Except ExtractionError (List Page))
    (lenFn : List Char → Nat) (fs1 fs2 : List (List Char)) (bad base : List Char)
    (hbad : (suffixLower bad = ".pdf".data ∧ ∃ er, extP bad = .error er) ∨
      ((suffixLower bad = ".docx".data ∨ suffixLower bad = ".doc".data) ∧
        ∃ er, extD bad = .error er)) :
    process_document extP extD lenFn bad base = [] ∧
      (scan_and_process_documents extP extD lenFn (fs1 ++ bad :: fs2) base).1 =
        (scan_and_process_documents extP extD lenFn fs1 base).1 ++
          (scan_and_process_documents extP extD lenFn fs2 base).1 := by
  have hne1 : (String.data ".docx") ≠ (String.data ".pdf") := by decide
  have hne2 : (String.data ".doc") ≠ (String.data ".pdf") := by decide
  have hproc : process_document extP extD lenFn bad base = [] := by
    rcases hbad with ⟨hext, er, herr⟩ | ⟨hext, er, herr⟩
    · simp [process_document, hext, herr]
    · rcases hext with h | h
      · simp [process_document, h, hne1, herr]
      · simp [process_document, h, hne2, herr]
  have hsup : isSupportedExt (suffixLower bad) = true := by
    rcases hbad with ⟨hext, _⟩ | ⟨hext, _⟩
    · simp [isSupportedExt, hext]
    · rcases hext with h | h <;> simp [isSupportedExt, h]
  refine ⟨hproc, ?_⟩
  have h1 := (scan_append extP extD lenFn base fs1 (bad :: fs2)).1
  have h2 : (scan_and_process_documents extP extD lenFn (bad :: fs2) base).1 =
      (scan_and_process_documents extP extD lenFn fs2 base).1 := by
    rw [scan_and_process_documents]
    simp [hsup, hproc]
  rw [h1, h2]

/-- Witness for C8_confirmed: one corrupt PDF next to one healthy DOCX. -/
theorem C8_witness :
    process_document extFail extDocxOne charLen "data/bad.pdf".data "data".data = [] ∧
      (scan_and_process_documents extFail extDocxOne charLen
          ["data/bad.pdf".data, "data/good.docx".data] "data".data).1 =
        (scan_and_process_documents extFail extDocxOne charLen [] "data".data).1 ++
          (scan_and_process_documents extFail extDocxOne charLen
            ["data/good.docx".data] "data".data).1 :=
  C8_confirmed extFail extDocxOne charLen [] ["data/good.docx".data]
    "data/bad.pdf".data "data".data
    (Or.inl ⟨by decide, ⟨.parseFailure "corrupt", rfl⟩⟩)

/-- Claim C9, counterexample: in a single ingestion run over two files
that share the basename `r.pdf` and both have a page 1, the chunk_index
values carried by the chunks of the (source_file, page_number) pair
`(r.pdf, 1)` are `[0, 0]` — not a contiguous zero-based sequence. -/
theorem C9_counterexample :
    ¬ ((((scan_and_process_documents extOnePage extFail charLen
          ["data/a/r.pdf".data, "data/b/r.pdf".data] "data".data).1.filter
          (sameKey "r.pdf".data (some 1))).map (fun c => c.chunk_index)) =
        List.range (((scan_and_process_documents extOnePage extFail charLen
          ["data/a/r.pdf".data, "data/b/r.pdf".data] "data".data).1.filter
          (sameKey "r.pdf".data (some 1))).length)) := by
  have hscan : (scan_and_process_documents extOnePage extFail charLen
      ["data/a/r.pdf".data, "data/b/r.pdf".data] "data".data).1 =
      [⟨['t'], "r.pdf".data, some "a".data, some 1, 0, "a/r.pdf".data, "pdf"⟩,
       ⟨['t'], "r.pdf".data, some "b".data, some 1, 0, "b/r.pdf".data, "pdf"⟩] := by
    simp [scan_and_process_documents, process_document, extOnePage, pageChunksOf,
      chunk_text_by_tokens, splitTextCore, splitLoop, SEPARATORS, mergeSplits,
      mergeGo, joinDocs, containsSub, isPrefixL, splitKeep, charLen, totalOf,
      intercalateL, pyStrip, pyIsSpace, suffixLower, basenameL, relPathL, parentL,
      isSupportedExt]
  rw [hscan]
  decide

/-- Claim C9, amended: within one processed file whose pages carry
pairwise-distinct page numbers, the chunk_index values of the chunks of
each page form the contiguous zero-based sequence 0, 1, 2, … in chunking
order; the invariant does not extend across distinct files that share a
basename and page number. -/
theorem C9_amended (extP extD : List Char → Except ExtractionError (List Page))
    (lenFn : List Char → Nat) (file base : List Char) (pages : List Page)
    (hext : suffixLower file = ".pdf".data) (hok : extP file = .ok pages)
    (hnd : (pages.map Page.page_number).Nodup) (pn : Option Nat) :
    (((process_document extP extD lenFn file base).filter (samePage pn)).map
        (fun c => c.chunk_index)) =
      List.range
        ((process_document extP extD lenFn file base).filter (samePage pn)).length := by
  have hproc : process_document extP extD lenFn file base =
      pages.flatMap (fun pg => (pageChunksOf lenFn pg.text).enum.map (fun ic =>
        (⟨ic.2, basenameL file, parentL (relPathL file base), pg.page_number, ic.1,
          relPathL file base, "pdf"⟩ : DocChunk))) := by
    simp [process_document, hext, hok]
  rw [hproc]
  refine flat_filter_range _ ?_ ?_ pages hnd pn
  · intro pg c hc
    obtain ⟨ic, _, hic⟩ := List.mem_map.mp hc
    rw [← hic]
  · intro pg
    exact block_map_chunk_index lenFn file base "pdf" pg

/-- Witness for C9_amended: one PDF with two distinct pages. -/
theorem C9_witness :
    (((process_document extTwoPages extFail charLen "data/r.pdf".data
        "data".data).filter (samePage (some 1))).map (fun c => c.chunk_index)) =
      List.range ((process_document extTwoPages extFail charLen "data/r.pdf".data
        "data".data).filter (samePage (some 1))).length :=
  C9_amended extTwoPages extFail charLen "data/r.pdf".data "data".data
    [⟨['a'], some 1⟩, ⟨['b'], some 2⟩] (by decide) rfl (by decide) (some 1)

/-- Claim C1, counterexample: a run whose single chunk is all-null-byte
text reports chunks_processed = 1 although zero rows are written (first
conjunct), and the chunk is sent to the embedding service before being
dropped — an embedding failure on exactly that text aborts the whole run
(second conjunct). -/
theorem C1_counterexample :
    load_documents_internal extNullPage extFail charLen svcOk
        ["data/f.pdf".data] "data".data [] = .ok (1, 1, []) ∧
      load_documents_internal extNullPage extFail charLen svcFailNull
        ["data/f.pdf".data] "data".data [] = .error (.emb .timeout) := by
  constructor
  · have hge : ∀ t : List Char, get_embedding svcOk t = .ok [1] :=
      fun t => createWithRetries_ok svcOk t 0 OPENAI_MAX_RETRIES [1] rfl
    simp [load_documents_internal, scan_and_process_documents, process_document,
      extNullPage, hge, pageChunksOf, chunk_text_by_tokens, splitTextCore,
      splitLoop, SEPARATORS, mergeSplits, mergeGo, joinDocs, containsSub, isPrefixL,
      splitKeep, charLen, totalOf, intercalateL, pyStrip, pyIsSpace, suffixLower,
      basenameL, relPathL, parentL, isSupportedExt, embedAll,
      store_embeddings, sanitizeChunkText]
  · have hge : get_embedding svcFailNull ['\x00'] = .error .timeout := rfl
    simp [load_documents_internal, scan_and_process_documents, process_document,
      extNullPage, hge, pageChunksOf, chunk_text_by_tokens, splitTextCore,
      splitLoop, SEPARATORS, mergeSplits, mergeGo, joinDocs, containsSub, isPrefixL,
      splitKeep, charLen, totalOf, intercalateL, pyStrip, pyIsSpace, suffixLower,
      basenameL, relPathL, parentL, isSupportedExt, embedAll]

/-- Claim C1, amended: a chunk whose sanitized text is empty is dropped at
the store-write step only — the rows written exclude it, but it is still
embedded, and the returned chunks_processed counts every chunk produced by
chunking, dropped or not. -/
theorem C1_amended (extP extD : List Char → Except ExtractionError (List Page))
    (lenFn : List Char → Nat)
    (svc : Nat → List Char → Except EmbeddingError Embedding)
    (files : List (List Char)) (base : List Char) (db : List StoredRow)
    (n fp : Nat) (db2 : List StoredRow)
    (h : load_documents_internal extP extD lenFn svc files base db = .ok (n, fp, db2)) :
    n = (scan_and_process_documents extP extD lenFn files base).1.length ∧
      db2.length = db.length +
        ((scan_and_process_documents extP extD lenFn files base).1.filter
          (fun c => decide (sanitizeChunkText c.text ≠ []))).length := by
  by_cases hz : (scan_and_process_documents extP extD lenFn files base).1 = []
  · have hload : load_documents_internal extP extD lenFn svc files base db =
        .ok (0, (scan_and_process_documents extP extD lenFn files base).2, db) := by
      simp [load_documents_internal, hz]
    rw [hload] at h
    have h1 : (0 : Nat) = n ∧
        (scan_and_process_documents extP extD lenFn files base).2 = fp ∧ db = db2 := by
      simpa using h
    rw [← h1.1, ← h1.2.2]
    simp [hz]
  · cases hemb : embedAll svc (scan_and_process_documents extP extD lenFn files base).1 with
    | error e =>
      have hload : load_documents_internal extP extD lenFn svc files base db =
          .error (.emb e) := by
        simp [load_documents_internal, hz, hemb]
      rw [hload] at h
      exact absurd h (by simp)
    | ok embs =>
      have hlen : embs.length =
          (scan_and_process_documents extP extD lenFn files base).1.length :=
        embedAll_length svc _ embs hemb
      cases hst : store_embeddings db
          (scan_and_process_documents extP extD lenFn files base).1 embs with
      | error m =>
        have hload : load_documents_internal extP extD lenFn svc files base db =
            .error (.store m) := by
          simp [load_documents_internal, hz, hemb, hst]
        rw [hload] at h
        exact absurd h (by simp)
      | ok dbx =>
        have hload : load_documents_internal extP extD lenFn svc files base db =
            .ok ((scan_and_process_documents extP extD lenFn files base).1.length,
              (scan_and_process_documents extP extD lenFn files base).2, dbx) := by
          simp [load_documents_internal, hz, hemb, hst]
        rw [hload] at h
        have hn : (scan_and_process_documents extP extD lenFn files base).1.length = n
            ∧ (scan_and_process_documents extP extD lenFn files base).2 = fp
            ∧ dbx = db2 := by
          simpa using h
        unfold store_embeddings at hst
        rw [if_neg (by omega)] at hst
        have hdbx : dbx = db ++
            (((scan_and_process_documents extP extD lenFn files base).1.zip embs).filterMap
              (fun ce => if sanitizeChunkText ce.1.text = [] then none
                else some ⟨sanitizeChunkText ce.1.text, ce.2, ce.1.source_file,
                  ce.1.folder_path, ce.1.page_number, some ce.1.chunk_index,
                  ce.1.meta_file_path, ce.1.meta_file_type⟩)) := by
          simpa using hst.symm
        have hval := zip_filterMap_length
          (fun ce => (⟨sanitizeChunkText ce.1.text, ce.2, ce.1.source_file,
            ce.1.folder_path, ce.1.page_number, some ce.1.chunk_index,
            ce.1.meta_file_path, ce.1.meta_file_type⟩ : StoredRow))
          (scan_and_process_documents extP extD lenFn files base).1 embs (by omega)
        refine ⟨hn.1.symm, ?_⟩
        rw [← hn.2.2, hdbx]
        simp [hval]

/-- Witness for C1_amended on the all-null-byte run: chunks_processed is
the full chunk count 1 while the row count added to the store is 0. -/
theorem C1_witness :
    (1 : Nat) = (scan_and_process_documents extNullPage extFail charLen
        ["data/f.pdf".data] "data".data).1.length ∧
      ([] : List StoredRow).length = ([] : List StoredRow).length +
        ((scan_and_process_documents extNullPage extFail charLen
          ["data/f.pdf".data] "data".data).1.filter
          (fun c => decide (sanitizeChunkText c.text ≠ []))).length :=
  C1_amended extNullPage extFail charLen svcOk ["data/f.pdf".data] "data".data
    [] 1 1 [] (by
      have hge : ∀ t : List Char, get_embedding svcOk t = .ok [1] :=
        fun t => createWithRetries_ok svcOk t 0 OPENAI_MAX_RETRIES [1] rfl
      simp [load_documents_internal, scan_and_process_documents, process_document,
        extNullPage, hge, pageChunksOf, chunk_text_by_tokens, splitTextCore,
        splitLoop, SEPARATORS, mergeSplits, mergeGo, joinDocs, containsSub,
        isPrefixL, splitKeep, charLen, totalOf, intercalateL, pyStrip, pyIsSpace,
        suffixLower, basenameL, relPathL, parentL, isSupportedExt, embedAll,
        store_embeddings, sanitizeChunkText])

end SopRag
